import Mathlib

/-!
Verification of the `mh-orange/vfs` in-memory filesystem (`mem.go`, `vfs.go`,
`util.go`, `error.go`) against its natural-language specification.

This file shallowly embeds the Go sources in Lean 4:

* Go strings and `[]byte` values are embedded as `List Nat` (a Go string is a
  byte sequence; all separators used by the code are single ASCII bytes).
* Go `int64`/`int` values are embedded as `Int`, with truncated division
  (`Int.tdiv`/`Int.tmod`) matching Go's `/` and `%` on signed integers.
* Pointer-mutated state (`*memfs`, `*memInode`, `*memFile`) becomes explicit
  state passing: inodes are addressed by their index into `Memfs.inodes`, so
  aliasing through multiple handles is by construction the same as in Go.
* Wall-clock time (`time.Now`, `modTime`) is irrelevant to every claim and is
  not modelled.
* Go channels are embedded as bounded FIFO queues; a non-blocking send on a
  channel appends when the buffer has spare capacity and is otherwise a no-op.

The embedding follows the newest variant of each Go source file (the one the
claims' line numbers point at).
-/

set_option maxRecDepth 10000

namespace Vfs

/-- Go strings and byte slices, embedded as lists of bytes. -/
abbrev GoStr := List Nat

/-- Helper to write byte-list literals from ASCII Lean strings. -/
def goStr (s : String) : GoStr := s.data.map (fun c => c.toNat)

/-- The byte of the path separator character. -/
def slashByte : Nat := 47

/-- The byte of the dot character. -/
def dotByte : Nat := 46

/-- `PathSeparator`.  Modelled from the spec: the constant itself is declared in
a repository file that is not part of the sources, but §4.6 of the spec and the
`"/"` literals in `OpenFile`/`Mkdir` fix it to the slash. -/
def PathSeparator : GoStr := [slashByte]

/-! ## Big-endian int64 encoding (`encoding/binary`, big endian) -/

/-- Big-endian byte list (8 bytes) of a natural number below `2^64`. -/
def beBytes8 (v : Nat) : List Nat :=
  [v / 2 ^ 56 % 256, v / 2 ^ 48 % 256, v / 2 ^ 40 % 256, v / 2 ^ 32 % 256,
   v / 2 ^ 24 % 256, v / 2 ^ 16 % 256, v / 2 ^ 8 % 256, v % 256]

/-- Big-endian accumulation of a byte list into a natural number. -/
def beUint (bs : List Nat) : Nat :=
  bs.foldl (fun a b => a * 256 + b % 256) 0

/-- Two's-complement reading of a 64-bit unsigned value as `int64`. -/
def toInt64 (u : Nat) : Int :=
  if u < 2 ^ 63 then (u : Int) else (u : Int) - 2 ^ 64

/-- `int64` to its 8 big-endian bytes (two's complement), as
`binary.Write(w, binary.BigEndian, v)` produces. -/
def int64Bytes (v : Int) : List Nat :=
  beBytes8 (v % 2 ^ 64).toNat

/-! ## Go `strings` and `path` helpers used by the sources -/

/-- `strings.HasPrefix(s, pre)`. -/
def goHasPre (s pre : GoStr) : Bool := pre.isPrefixOf s

/-- `strings.TrimPrefix(s, pre)`: removes `pre` once when present. -/
def goTrimPre (s pre : GoStr) : GoStr :=
  if pre.isPrefixOf s then s.drop pre.length else s

/-- `strings.HasSuffix(s, suf)`. -/
def goHasSuf (s suf : GoStr) : Bool := suf.isSuffixOf s

/-- `strings.TrimSuffix(s, suf)`: removes `suf` once when present. -/
def goTrimSuf (s suf : GoStr) : GoStr :=
  if suf.isSuffixOf s then s.take (s.length - suf.length) else s

/-- `strings.Split(s, "/")` for the single-byte separator. -/
def splitSep : GoStr → List GoStr
  | [] => [[]]
  | c :: rest =>
    if c = slashByte then [] :: splitSep rest
    else
      match splitSep rest with
      | s :: ss => (c :: s) :: ss
      | [] => [[c]]

/-- Index just past the last slash of a path (0 when there is none);
`strings.LastIndex(path, "/") + 1`. -/
def lastSlashEnd (p : GoStr) : Nat :=
  match p with
  | [] => 0
  | c :: rest =>
    let r := lastSlashEnd rest
    if r = 0 then (if c = slashByte then 1 else 0) else r + 1

/-- `path.Split(p)`: splits after the final slash. -/
def pathSplitGo (p : GoStr) : GoStr × GoStr :=
  let i := lastSlashEnd p
  (p.take i, p.drop i)

/-- Dropping a prefix by predicate never lengthens a list (termination helper). -/
theorem dropWhileLenLe (p : Nat → Bool) (l : List Nat) :
    (l.dropWhile p).length ≤ l.length := by
  induction l with
  | nil => simp [List.dropWhile]
  | cons a t ih =>
    simp only [List.dropWhile]
    cases h : p a <;> simp <;> omega

/-- The backtracking step of `path.Clean` for a `..` element: the write
cursor steps back over the previous element until it sits on a slash or at
the `dotdot` barrier. -/
def cleanBacktrack (dotdot : Nat) (out : List Nat) : List Nat :=
  let rec go : Nat → Nat
    | 0 => 0
    | w + 1 => if w + 1 > dotdot ∧ out.getD (w + 1) 0 ≠ slashByte then go w else w + 1
  out.take (go (out.length - 1))

/-- The main loop of `path.Clean`, transcribed from Go's `path.Clean`:
`rooted` records a leading slash, `dotdot` the barrier before which `..`
cannot erase output, `out` the output buffer.  The `fuel` argument makes the
recursion structural; every branch consumes at least one input byte, so the
wrapper's `length + 1` fuel is never exhausted. -/
def cleanLoop (rooted : Bool) : Nat → Nat → List Nat → List Nat → List Nat
  | _, _, out, [] => out
  | 0, _, out, _ => out
  | fuel + 1, dotdot, out, c :: rest =>
    if c = slashByte then
      -- empty path element
      cleanLoop rooted fuel dotdot out rest
    else if c = dotByte ∧ (rest = [] ∨ rest.head? = some slashByte) then
      -- "." element
      cleanLoop rooted fuel dotdot out rest
    else if c = dotByte ∧ rest.head? = some dotByte ∧
        (rest.tail = [] ∨ rest.tail.head? = some slashByte) then
      -- ".." element
      if out.length > dotdot then
        cleanLoop rooted fuel dotdot (cleanBacktrack dotdot out) rest.tail
      else if !rooted then
        let out' := (if out.length > 0 then out ++ [slashByte] else out) ++ [dotByte, dotByte]
        cleanLoop rooted fuel out'.length out' rest.tail
      else
        cleanLoop rooted fuel dotdot out rest.tail
    else
      -- real path element: add slash if needed, then copy the element
      let out' := if (rooted ∧ out.length ≠ 1) ∨ (!rooted ∧ out.length ≠ 0)
        then out ++ [slashByte] else out
      let seg := (c :: rest).takeWhile (fun b => b ≠ slashByte)
      let rest' := (c :: rest).dropWhile (fun b => b ≠ slashByte)
      cleanLoop rooted fuel dotdot (out' ++ seg) rest'

/-- `path.Clean`, from Go's `path` package. -/
def pathClean (p : GoStr) : GoStr :=
  if p = [] then [dotByte]
  else
    let rooted := p.head? = some slashByte
    let start := if rooted then [slashByte] else []
    let dotdot := if rooted then 1 else 0
    let rest := if rooted then p.tail else p
    let out := cleanLoop rooted (rest.length + 1) dotdot start rest
    if out = [] then [dotByte] else out

/-- `path.Dir(p)`: `Clean` of the directory part of `Split`. -/
def pathDirGo (p : GoStr) : GoStr :=
  pathClean (pathSplitGo p).1

/-- `path.Base(p)`. -/
def pathBaseGo (p : GoStr) : GoStr :=
  if p = [] then [dotByte]
  else
    let p1 := p.reverse.dropWhile (fun b => b = slashByte) |>.reverse
    let p2 := p1.drop (lastSlashEnd p1)
    if p2 = [] then [slashByte] else p2

/-- `path.Join(elem...)` for two elements, as the 2019 `path` package does:
`Clean` of the elements joined with a slash, skipping leading empties. -/
def pathJoinGo (a b : GoStr) : GoStr :=
  if a ≠ [] then pathClean (a ++ [slashByte] ++ b)
  else if b ≠ [] then pathClean b
  else []

/-! ## Error values (`error.go`) and events -/

/-- The closed set of error values of the package, plus `io` errors that the
sources produce, plus a `diverge` marker standing for a source-level infinite
loop (only reachable from malformed states).  `pathError` is `vfs.PathError`. -/
inductive GoErr where
  | eof
  | unexpectedEOF
  | errInvalidFlags
  | errInvalidSeek
  | errReadOnly
  | errWriteOnly
  | errWhence
  | errExist
  | errNotExist
  | errNotDir
  | errIsDir
  | errBadPattern
  | errSize
  | errClosed
  | errShortWrite
  | diverge
  | pathError (op : GoStr) (path : GoStr) (cause : GoErr)
  deriving DecidableEq, Repr

/-- `EventType` bit values (`CreateEvent = 1 << iota`, ...). -/
def CreateEvent : Nat := 1

def ModifyEvent : Nat := 2

def RemoveEvent : Nat := 4

def RenameEvent : Nat := 8

def AttributeEvent : Nat := 16

def ErrorEvent : Nat := 32

/-- An `Event` record: type bit, path, optional error. -/
structure Event where
  type : Nat
  path : GoStr
  error : Option GoErr
  deriving DecidableEq, Repr

/-- A Go channel of events, embedded as a bounded FIFO buffer. -/
structure MemChan where
  cap : Nat
  buf : List Event
  deriving DecidableEq, Repr

/-! ## Open flags (`vfs.go`) -/

/-- Flag constants (`os.O_*` values on the platforms the tests run on). -/
def RdOnlyFlag : Nat := 0

def WrOnlyFlag : Nat := 1

def RdWrFlag : Nat := 2

def AppendFlag : Nat := 1024

def CreateFlag : Nat := 64

def ExclFlag : Nat := 128

def TruncFlag : Nat := 512

/-- `OpenFlag.has`: membership of a flag bit, with the special case that a
zero flag tests the receiver for zero. -/
def flagHas (of flag : Nat) : Bool :=
  if flag = 0 then of = 0 else of &&& flag = flag

/-- `OpenFlag.check` from `vfs.go` (the variant without `O_SYNC`). -/
def flagCheck (of : Nat) : Option GoErr :=
  if flagHas of WrOnlyFlag ∧ flagHas of RdWrFlag then some GoErr.errInvalidFlags
  else if of ≠ 0 then
    -- only write mode can use create, append and truncate
    if flagHas of AppendFlag ∨ flagHas of CreateFlag ∨ flagHas of TruncFlag ∨
        flagHas of ExclFlag then
      if ¬flagHas of WrOnlyFlag ∧ ¬flagHas of RdWrFlag then some GoErr.errInvalidFlags
      else none
    else none
  else none

/-! ## The in-memory filesystem state (`mem.go`, newest variant) -/

/-- `blocksize = int64(1024)`. -/
def blocksizeI : Int := 1024

/-- File mode bits used by the sources (`os.ModeDir`, `os.ModeSymlink`). -/
def ModeDir : Nat := 2 ^ 31

/-- `os.ModeSymlink`. -/
def ModeSymlink : Nat := 2 ^ 27

/-- `memInode`: size, mode, symlink target and block list, plus its own
number and its parent's number (used for notifications).  `modTime` is not
modelled (wall-clock time). -/
structure MemInode where
  num : Nat := 0
  parent : Nat := 0
  size : Int := 0
  mode : Nat := 0
  link : GoStr := []
  blocks : List Nat := []
  deriving DecidableEq, Repr, Inhabited

/-- `FileMode.IsDir()`: the directory bit is set. -/
def MemInode.IsDir (i : MemInode) : Bool := i.mode &&& ModeDir ≠ 0

/-- `memfs`: inode table, inode free-list, block free-list, block table,
watcher table, and (owned by the watchers in Go) the event channels. -/
structure Memfs where
  inodes : List MemInode := []
  freeInodes : List Nat := []
  freeBlocks : List Nat := []
  blocks : List (List Nat) := []
  watchers : List (Nat × List (Nat × GoStr)) := []
  channels : List (Nat × MemChan) := []
  deriving DecidableEq, Repr, Inhabited

/-- `NewMemFs()`: a single root inode (index 0) with directory mode. -/
def newMemFs : Memfs :=
  { inodes := [{ num := 0, mode := ModeDir }], watchers := [] }

/-- `memfs.block(n)`: the data of block `n` (a slice view in Go). -/
def Memfs.blockData (fs : Memfs) (n : Nat) : List Nat := fs.blocks.getD n []

/-- `memfs.inode(n)` / dereferencing a `*memInode`. -/
def Memfs.inodeAt (fs : Memfs) (n : Nat) : MemInode := fs.inodes.getD n default

/-- Writing back a mutated inode (pointer update in Go). -/
def Memfs.setInode (fs : Memfs) (n : Nat) (i : MemInode) : Memfs :=
  { fs with inodes := fs.inodes.set n i }

/-- Writing back a mutated block (slice mutation in Go). -/
def Memfs.setBlock (fs : Memfs) (n : Nat) (b : List Nat) : Memfs :=
  { fs with blocks := fs.blocks.set n b }

/-- `memfs.free(blocks...)`: push block indices onto the free-list. -/
def Memfs.freeBlks (fs : Memfs) (bs : List Nat) : Memfs :=
  { fs with freeBlocks := fs.freeBlocks ++ bs }

/-- `memfs.alloc()`: pop the head of the block free-list, or append a fresh
zero block. -/
def Memfs.alloc (fs : Memfs) : Memfs × Nat :=
  match fs.freeBlocks with
  | b :: rest => ({ fs with freeBlocks := rest }, b)
  | [] => ({ fs with blocks := fs.blocks ++ [List.replicate 1024 0] }, fs.blocks.length)

/-- `memfs.freeInode(n)`: free the inode's blocks, reset its fields (except
its number) and push it onto the inode free-list. -/
def Memfs.freeInode (fs : Memfs) (n : Nat) : Memfs :=
  let ino := fs.inodeAt n
  let fs := { fs with freeBlocks := fs.freeBlocks ++ ino.blocks }
  let fs := fs.setInode n { num := ino.num }
  { fs with freeInodes := fs.freeInodes ++ [n] }

/-! ## Watch / notify (`mem.go` + the watcher source) -/

/-- Updating the channel of watcher `wid` in the channel table. -/
def chanSend : List (Nat × MemChan) → Nat → Event → List (Nat × MemChan)
  | [], _, _ => []
  | (k, ch) :: tl, w, ev =>
    if k = w then
      (k, if ch.buf.length < ch.cap then { ch with buf := ch.buf ++ [ev] } else ch) :: tl
    else (k, ch) :: chanSend tl w ev

/-- Non-blocking send on a watcher's channel: append if there is spare
capacity, otherwise drop the event. -/
def Memfs.trySend (fs : Memfs) (wid : Nat) (ev : Event) : Memfs :=
  { fs with channels := chanSend fs.channels wid ev }

/-- `memfs.notify(t, inode, name)`: fan the event out to every watcher
registered under `inode`, joining the subscribed path with the entry name. -/
def Memfs.notify (fs : Memfs) (t : Nat) (inodeNum : Nat) (name : GoStr) : Memfs :=
  match fs.watchers.lookup inodeNum with
  | some ws =>
    ws.foldl
      (fun fs w =>
        fs.trySend w.1 { type := t, path := pathJoinGo w.2 name, error := none }) fs
  | none => fs

/-! ## Inode block I/O (`memInode.readBlock` / `writeBlock` / `trunc`) -/

/-- `memInode.readBlock(block, offset, p)` with `len(p) = plen`: returns the
copied bytes (their count is the returned `n`).  Indexing a block that does
not exist is a Go panic; the model reads an empty block instead (unreachable
from well-formed states). -/
def Memfs.readBlock (fs : Memfs) (n : Nat) (block offset : Int) (plen : Nat) :
    List Nat × Option GoErr :=
  let ino := fs.inodeAt n
  if block * blocksizeI + offset < ino.size then
    let src := fs.blockData (ino.blocks.getD block.toNat 0)
    if ino.size < (block + 1) * blocksizeI then
      let sizeOffset := ino.size - block * blocksizeI
      (((src.drop offset.toNat).take (sizeOffset - offset).toNat).take plen, none)
    else ((src.drop offset.toNat).take plen, none)
  else ([], some GoErr.eof)

/-- The growth loop of `memInode.writeBlock`: append freshly allocated blocks
while `size ≥ blocksize * len(blocks)`.  Structural fuel; the wrapper passes
`size / 1024 + 2`, which is enough for the loop to reach its exit condition. -/
def Memfs.growBlocks (fs : Memfs) (n : Nat) : Nat → Memfs
  | 0 => fs
  | fuel + 1 =>
    let ino := fs.inodeAt n
    if ino.size < blocksizeI * ino.blocks.length then fs
    else
      let fsB := fs.alloc
      let fs' := fsB.1.setInode n { ino with blocks := ino.blocks ++ [fsB.2] }
      fs'.growBlocks n fuel

/-- `memInode.writeBlock(block, offset, p)`: grow the block list, then copy
`p` into the addressed block starting at `offset`; the inode size grows by
the number of copied bytes. -/
def Memfs.writeBlock (fs : Memfs) (n : Nat) (block offset : Int) (p : List Nat) :
    Memfs × Nat :=
  let fs := fs.growBlocks n ((fs.inodeAt n).size.toNat / 1024 + 2)
  let ino := fs.inodeAt n
  let bIdx := ino.blocks.getD block.toNat 0
  let blk := fs.blockData bIdx
  let cnt := min (blk.length - offset.toNat) p.length
  let blk' := blk.take offset.toNat ++ p.take cnt ++ blk.drop (offset.toNat + cnt)
  let fs := fs.setBlock bIdx blk'
  (fs.setInode n { ino with size := ino.size + cnt }, cnt)

/-- `memInode.trunc(size)` (newest variant): free the tail blocks beyond
`⌈size/1024⌉`, set the size, shrink the block list.  (In Go, slicing
`blocks[k:]` with `k > len(blocks)` can panic; the model clamps, and all
claims about `trunc` stay inside the in-bounds region.) -/
def Memfs.truncInode (fs : Memfs) (n : Nat) (size : Int) : Memfs :=
  let ino := fs.inodeAt n
  let k := (size.tdiv blocksizeI + if size.tmod blocksizeI > 0 then 1 else 0).toNat
  let fs := { fs with freeBlocks := fs.freeBlocks ++ ino.blocks.drop k }
  fs.setInode n { ino with size := size, blocks := ino.blocks.take k }

/-! ## File handles (`memFile`, newest variant) -/

/-- `memFile`: access-mode bits, addressed inode, cursor, closed bit and the
path the handle was opened with (the notifier is the filesystem itself). -/
structure MemFileH where
  readOnly : Bool := false
  writeOnly : Bool := false
  inodeNum : Nat := 0
  offset : Int := 0
  closed : Bool := false
  name : GoStr := []
  deriving DecidableEq, Repr, Inhabited

/-- `memFile.Seek(offset, whence)`: `0 = io.SeekStart`, `1 = io.SeekCurrent`,
`2 = io.SeekEnd`.  Returns the handle, the reported position and the error. -/
def MemFileH.seek (file : MemFileH) (fs : Memfs) (offset : Int) (whence : Int) :
    MemFileH × Int × Option GoErr :=
  let res : Int × Option GoErr :=
    if whence = 0 then (offset, none)
    else if whence = 1 then (file.offset + offset, none)
    else if whence = 2 then ((fs.inodeAt file.inodeNum).size + offset, none)
    else (offset, some GoErr.errWhence)
  if res.1 ≥ 0 then ({ file with offset := res.1 }, res.1, res.2)
  else (file, file.offset, some GoErr.errInvalidSeek)

/-- The read loop of `memFile.Read`: repeatedly call `readBlock` at the block
and in-block offset of the cursor until the buffer is full or an error
occurs.  Structural fuel (`plen + 1` from the wrapper); in well-formed states
every successful `readBlock` copies at least one byte. -/
def Memfs.readLoop (fs : Memfs) (n : Nat) : Nat → Int → Nat → List Nat × Option GoErr
  | _, _, 0 => ([], none)
  | 0, _, _ + 1 => ([], some GoErr.diverge)
  | fuel + 1, offset, rem + 1 =>
    let block := offset.tdiv blocksizeI
    let boff := offset - block * blocksizeI
    let bsErr := fs.readBlock n block boff (rem + 1)
    match bsErr.2 with
    | some e => (bsErr.1, some e)
    | none =>
      let rec' := fs.readLoop n fuel (offset + bsErr.1.length) (rem + 1 - bsErr.1.length)
      (bsErr.1 ++ rec'.1, rec'.2)

/-- `memFile.Read(p)` with `len(p) = plen`: write-only handles are rejected;
otherwise the loop fills the buffer, advancing the cursor by the copied
count. -/
def MemFileH.read (file : MemFileH) (fs : Memfs) (plen : Nat) :
    MemFileH × List Nat × Option GoErr :=
  if file.writeOnly then (file, [], some GoErr.errWriteOnly)
  else
    let r := fs.readLoop file.inodeNum (plen + 1) file.offset plen
    ({ file with offset := file.offset + r.1.length }, r.1, r.2)

/-- The write loop of `memFile.Write`: repeatedly `writeBlock` at the cursor's
block/in-block offset.  Structural fuel (`len(p) + 1` from the wrapper). -/
def Memfs.writeLoopAux (n : Nat) : Nat → Memfs → Int → List Nat → Memfs × Int × Nat × Option GoErr
  | _, fs, offset, [] => (fs, offset, 0, none)
  | 0, fs, offset, _ :: _ => (fs, offset, 0, some GoErr.diverge)
  | fuel + 1, fs, offset, p0 :: prest =>
    let block := offset.tdiv blocksizeI
    let boff := if offset < (block + 1) * blocksizeI then offset - block * blocksizeI else 0
    let r := fs.writeBlock n block boff (p0 :: prest)
    let rest := writeLoopAux n fuel r.1 (offset + r.2) ((p0 :: prest).drop r.2)
    (rest.1, rest.2.1, r.2 + rest.2.2.1, rest.2.2.2)

/-- `memFile.Write(p)`: read-only handles are rejected; after the loop, a
write through a non-directory handle emits a `ModifyEvent` on the parent
inode under the handle's name. -/
def MemFileH.write (file : MemFileH) (fs : Memfs) (p : List Nat) :
    Memfs × MemFileH × Nat × Option GoErr :=
  if file.readOnly then (fs, file, 0, some GoErr.errReadOnly)
  else
    let r := Memfs.writeLoopAux file.inodeNum (p.length + 1) fs file.offset p
    let fs := r.1
    let file := { file with offset := r.2.1 }
    let fs :=
      if !(fs.inodeAt file.inodeNum).IsDir then
        fs.notify ModifyEvent (fs.inodeAt file.inodeNum).parent file.name
      else fs
    (fs, file, r.2.2.1, r.2.2.2)

/-- `memFile.trunc(size)`: read-only handles are rejected; an out-of-range
size sets the invalid-size error, but the inode is truncated regardless
(the `else` of the spec is missing in the source). -/
def MemFileH.trunc (file : MemFileH) (fs : Memfs) (size : Int) : Memfs × Option GoErr :=
  if file.readOnly then (fs, some GoErr.errReadOnly)
  else
    let err := if size < 0 ∨ size > (fs.inodeAt file.inodeNum).size
      then some GoErr.errSize else none
    (fs.truncInode file.inodeNum size, err)

/-- `memFile.Close()`: the first close succeeds, later closes return the
already-closed error. -/
def MemFileH.close (file : MemFileH) : MemFileH × Option GoErr :=
  if file.closed then (file, some GoErr.errClosed)
  else ({ file with closed := true }, none)

/-- `memFile.flags(flag)`: on a directory inode, write-ish flags produce the
is-directory error and nothing happens; on a regular inode the access-mode
bits are set, `TruncFlag` truncates to zero and `AppendFlag` seeks to the
end. -/
def fileFlags (file : MemFileH) (fs : Memfs) (flag : Nat) :
    Memfs × MemFileH × Option GoErr :=
  if (fs.inodeAt file.inodeNum).IsDir then
    if flagHas flag WrOnlyFlag ∨ flagHas flag RdWrFlag ∨ flagHas flag AppendFlag ∨
        flagHas flag CreateFlag ∨ flagHas flag TruncFlag then
      (fs, file, some GoErr.errIsDir)
    else (fs, file, none)
  else
    let file := if flagHas flag RdOnlyFlag then { file with readOnly := true }
      else if flagHas flag WrOnlyFlag then { file with writeOnly := true }
      else file
    let fs := if flagHas flag TruncFlag then fs.truncInode file.inodeNum 0 else fs
    if flagHas flag AppendFlag then
      let r := file.seek fs 0 2
      (fs, r.1, r.2.2)
    else (fs, file, none)

/-! ## Directory entries (`dirent`) -/

/-- A directory entry: an `int64` inode number and a name. -/
structure Dirent where
  inode : Int := 0
  name : GoStr := []
  deriving DecidableEq, Repr, Inhabited

/-- `dirent.size()`: 8 bytes inode number, 8 bytes name length, name bytes. -/
def direntSize (ent : Dirent) : Int := 16 + ent.name.length

/-- The serialized form of one entry (big-endian, as `dirent.write` emits). -/
def direntBytes (ent : Dirent) : List Nat :=
  int64Bytes ent.inode ++ int64Bytes ent.name.length ++ ent.name

/-- The serialized form of an entry sequence (a directory's payload). -/
def direntsBytes (ents : List Dirent) : List Nat :=
  (ents.map direntBytes).flatten

/-- `io.ReadFull(r, buf)` with `len(buf) = k` over a `memFile` reader: one
`Read` call fills maximally, so a short read always carries an error; zero
bytes at end-of-input stays `io.EOF` and a positive short read becomes
`io.ErrUnexpectedEOF`. -/
def readFull (fs : Memfs) (file : MemFileH) (k : Nat) :
    MemFileH × List Nat × Option GoErr :=
  let r := file.read fs k
  if r.2.1.length ≥ k then (r.1, r.2.1, none)
  else if r.2.1.length > 0 ∧ r.2.2 = some GoErr.eof then (r.1, r.2.1, some GoErr.unexpectedEOF)
  else (r.1, r.2.1, r.2.2)

/-- `dirent.read(reader)` (= `memDir.next()` payload): two big-endian
`int64` reads then the name bytes.  A negative length would make Go panic in
`make([]byte, length)`; the model reads zero bytes instead (unreachable from
well-formed states). -/
def direntReadH (fs : Memfs) (file : MemFileH) : MemFileH × Dirent × Option GoErr :=
  let r1 := readFull fs file 8
  match r1.2.2 with
  | some e => (r1.1, {}, some e)
  | none =>
    let ino := toInt64 (beUint r1.2.1)
    let r2 := readFull fs r1.1 8
    match r2.2.2 with
    | some e => (r2.1, { inode := ino }, some e)
    | none =>
      let len := toInt64 (beUint r2.2.1)
      let r3 := readFull fs r2.1 len.toNat
      match r3.2.2 with
      | some e => (r3.1, { inode := ino }, some e)
      | none => (r3.1, { inode := ino, name := r3.2.1 }, none)

/-- `dirent.write(writer)`: three `Write` calls on the directory handle. -/
def direntWrite (fs : Memfs) (file : MemFileH) (ent : Dirent) :
    Memfs × MemFileH × Option GoErr :=
  let r1 := file.write fs (int64Bytes ent.inode)
  match r1.2.2.2 with
  | some e => (r1.1, r1.2.1, some e)
  | none =>
    let r2 := r1.2.1.write r1.1 (int64Bytes ent.name.length)
    match r2.2.2.2 with
    | some e => (r2.1, r2.2.1, some e)
    | none =>
      let r3 := r2.2.1.write r2.1 ent.name
      (r3.1, r3.2.1, r3.2.2.2)

/-! ## Directory operations (`memDir`) -/

/-- The scan loop of `memDir.findEntry`: read entries until a name matches or
an error stops the scan.  Structural fuel; the wrapper passes `size + 1`,
enough because every successful entry read consumes at least 16 bytes. -/
def findEntryAux (fs : Memfs) (name : GoStr) : Nat → MemFileH → MemFileH × Dirent × Option GoErr
  | 0, file => (file, {}, some GoErr.diverge)
  | fuel + 1, file =>
    let r := direntReadH fs file
    match r.2.2 with
    | some e => (r.1, r.2.1, some e)
    | none =>
      if r.2.1.name = name then (r.1, r.2.1, none)
      else findEntryAux fs name fuel r.1

/-- `memDir.findEntry(name)`. -/
def dirFindEntry (fs : Memfs) (file : MemFileH) (name : GoStr) :
    MemFileH × Dirent × Option GoErr :=
  findEntryAux fs name ((fs.inodeAt file.inodeNum).size.toNat + 1) file

/-- `memDir.find(name)`: the inode number of the first matching entry. -/
def dirFind (fs : Memfs) (file : MemFileH) (name : GoStr) :
    MemFileH × Int × Option GoErr :=
  let r := dirFindEntry fs file name
  match r.2.2 with
  | none => (r.1, r.2.1.inode, none)
  | some e => (r.1, 0, some e)

/-- `memDir.append(inode, filename)`: remember the cursor, seek to the end,
serialize the entry, seek back; a `CreateEvent` is emitted unconditionally. -/
def dirAppend (fs : Memfs) (file : MemFileH) (ino : Int) (filename : GoStr) :
    Memfs × MemFileH × Option GoErr :=
  let oldOffset := file.offset
  let s1 := file.seek fs 0 2
  match s1.2.2 with
  | some e => (fs.notify CreateEvent (fs.inodeAt file.inodeNum).num filename, s1.1, some e)
  | none =>
    let w := direntWrite fs s1.1 { inode := ino, name := filename }
    match w.2.2 with
    | some e =>
      (w.1.notify CreateEvent (w.1.inodeAt file.inodeNum).num filename, w.2.1, some e)
    | none =>
      let s2 := w.2.1.seek w.1 oldOffset 0
      (w.1.notify CreateEvent (w.1.inodeAt file.inodeNum).num filename, s2.1, s2.2.2)

/-- The loop of `io.Copy(dst, src)` with its 32 KiB buffer; both handles
address the same inode during `unlink`, which the state passing preserves. -/
def ioCopyAux (fs : Memfs) : Nat → MemFileH → MemFileH → Memfs × MemFileH × MemFileH × Option GoErr
  | 0, dst, src => (fs, dst, src, some GoErr.diverge)
  | fuel + 1, dst, src =>
    let r := src.read fs 32768
    let src' := r.1
    if r.2.1.length > 0 then
      let w := dst.write fs r.2.1
      match w.2.2.2 with
      | some ew => (w.1, w.2.1, src', some ew)
      | none =>
        if w.2.2.1 ≠ r.2.1.length then (w.1, w.2.1, src', some GoErr.errShortWrite)
        else
          match r.2.2 with
          | some er => (w.1, w.2.1, src', if er = GoErr.eof then none else some er)
          | none => ioCopyAux w.1 fuel w.2.1 src'
    else
      match r.2.2 with
      | some er => (fs, dst, src', if er = GoErr.eof then none else some er)
      | none => ioCopyAux fs fuel dst src'

/-- `memDir.unlink(filename)`: find the entry, copy the remaining payload
over it (a fresh reader at the post-entry cursor, the directory handle as
writer), then truncate; the truncation error is discarded by the source. -/
def dirUnlink (fs : Memfs) (file : MemFileH) (filename : GoStr) :
    Memfs × MemFileH × Dirent × Option GoErr :=
  let f := dirFindEntry fs file filename
  match f.2.2 with
  | some e => (fs, f.1, f.2.1, some e)
  | none =>
    let ent := f.2.1
    let reader : MemFileH := { inodeNum := file.inodeNum, offset := f.1.offset }
    let s := f.1.seek fs (-(direntSize ent)) 1
    match s.2.2 with
    | some e => (fs, s.1, ent, some e)
    | none =>
      let c := ioCopyAux fs ((fs.inodeAt file.inodeNum).size.toNat + 2) s.1 reader
      match c.2.2.2 with
      | some e => (c.1, c.2.1, ent, some e)
      | none =>
        let t := c.2.1.trunc c.1 ((c.1.inodeAt file.inodeNum).size - direntSize ent)
        (t.1, c.2.1, ent, none)

/-- `memDir.remove(filename)`: unlink then, on success, a `RemoveEvent`. -/
def dirRemove (fs : Memfs) (file : MemFileH) (filename : GoStr) :
    Memfs × MemFileH × Dirent × Option GoErr :=
  let u := dirUnlink fs file filename
  match u.2.2.2 with
  | none =>
    (u.1.notify RemoveEvent (u.1.inodeAt file.inodeNum).num filename, u.2.1, u.2.2.1, none)
  | some e => (u.1, u.2.1, u.2.2.1, some e)

/-- The loop of `memDir.Readdir(n)`: while no error and `n ≤ 0`, read an
entry, append its `FileInfo` (modelled as name and inode number) and
decrement `n` unless it is `-1`.  Returns the final `n` as well, which the
wrapper's end-of-input translation inspects. -/
def readdirLoop (fs : Memfs) : Nat → MemFileH → Int → MemFileH × List (GoStr × Nat) × Int × Option GoErr
  | 0, file, n => (file, [], n, some GoErr.diverge)
  | fuel + 1, file, n =>
    if n ≤ 0 then
      let r := direntReadH fs file
      match r.2.2 with
      | some e => (r.1, [], n, some e)
      | none =>
        let n' := if n ≠ -1 then n - 1 else n
        let rest := readdirLoop fs fuel r.1 n'
        (rest.1, (r.2.1.name, r.2.1.inode.toNat) :: rest.2.1, rest.2.2.1, rest.2.2.2)
    else (file, [], n, none)

/-- `memDir.Readdir(n)`: end-of-input is mapped to success only when the
loop's counter ended at exactly `-1`. -/
def memDirReaddir (fs : Memfs) (file : MemFileH) (n : Int) :
    MemFileH × List (GoStr × Nat) × Option GoErr :=
  let r := readdirLoop fs ((fs.inodeAt file.inodeNum).size.toNat + 2) file n
  let err := if r.2.2.1 = -1 ∧ r.2.2.2 = some GoErr.eof then none else r.2.2.2
  (r.1, r.2.1, err)

/-- `memDir.Readdirnames(n)`: the names of `Readdir(n)`'s entries (only on
success). -/
def memDirReaddirnames (fs : Memfs) (file : MemFileH) (n : Int) :
    MemFileH × List GoStr × Option GoErr :=
  let r := memDirReaddir fs file n
  match r.2.2 with
  | none => (r.1, r.2.1.map Prod.fst, none)
  | some e => (r.1, [], some e)

/-! ## Path resolution (`memfs.find`) -/

/-- The walk loop of `memfs.find`: look each name up in the current
directory.  When the current inode is not a directory, the source sets
`ErrNotDir` and keeps iterating without changing the inode; every remaining
iteration recomputes the same outcome, so the model returns it directly. -/
def Memfs.findSegs (fs : Memfs) : Nat → List GoStr → Nat × Option GoErr
  | cur, [] => (cur, none)
  | cur, name :: rest =>
    if (fs.inodeAt cur).IsDir then
      let dirH : MemFileH := { inodeNum := cur }
      let r := dirFind fs dirH name
      match r.2.2 with
      | none => fs.findSegs r.2.1.toNat rest
      | some e => (cur, some e)
    else (cur, some GoErr.errNotDir)

/-- `memfs.find(filename)`: trim one leading and one trailing separator,
resolve the empty path to the root inode, otherwise walk the split
segments; a final `io.EOF` is translated to not-exist. -/
def Memfs.findInode (fs : Memfs) (filename : GoStr) : Nat × Option GoErr :=
  let f1 := goTrimPre filename PathSeparator
  let f2 := goTrimSuf f1 PathSeparator
  if f2 = [] then (0, none)
  else
    let r := fs.findSegs 0 (splitSep f2)
    (r.1, if r.2 = some GoErr.eof then some GoErr.errNotExist else r.2)

/-! ## Filesystem operations (`memfs`) -/

/-- `memfs.create(name, parent, perm)`: reuse the head of the inode
free-list (resetting only its mode) or append a fresh inode; set its parent,
append a directory entry (whose error the source ignores), and hand back a
fresh handle. -/
def Memfs.create (fs : Memfs) (name : GoStr) (parentNum : Nat) (perm : Nat) :
    Memfs × Nat × MemFileH :=
  let dirH : MemFileH := { inodeNum := parentNum }
  let alloc : Memfs × Nat :=
    match fs.freeInodes with
    | inodeNum :: rest =>
      let ino := fs.inodeAt inodeNum
      (({ fs with freeInodes := rest }).setInode inodeNum { ino with mode := perm }, inodeNum)
    | [] =>
      let newIno : MemInode := { num := fs.inodes.length, mode := perm }
      ({ fs with inodes := fs.inodes ++ [newIno] }, fs.inodes.length)
  let fs1 := alloc.1
  let n := alloc.2
  let fs2 := fs1.setInode n { fs1.inodeAt n with parent := (fs1.inodeAt parentNum).num }
  let r := dirAppend fs2 dirH ((fs2.inodeAt n).num : Int) name
  (r.1, n, { inodeNum := n })

/-- An opened `File`: either a regular `*memFile` or a `*memDir` wrapping
the same handle type. -/
inductive GoFile where
  | reg (h : MemFileH)
  | dir (h : MemFileH)
  deriving DecidableEq, Repr

/-- `memfs.OpenFile(filename, flag, perm)`, newest variant: prefix a slash,
validate the flags, resolve; on hit apply `flags` (whose error the source
discards) and reject `CREATE|EXCL`; on miss resolve the parent and create
when `CREATE` with a write mode is present; finally wrap the handle as a
directory or regular file. -/
def Memfs.openFile (fs : Memfs) (filename0 : GoStr) (flag perm : Nat) :
    Memfs × Option GoFile × Option GoErr :=
  let filename := if goHasPre filename0 PathSeparator then filename0
    else PathSeparator ++ filename0
  match flagCheck flag with
  | some e => (fs, none, some e)
  | none =>
    let f := fs.findInode filename
    let step : Memfs × Option (Nat × MemFileH) × Option GoErr :=
      match f.2 with
      | none =>
        let file : MemFileH := { inodeNum := f.1 }
        let ff := fileFlags file fs flag
        if flagHas flag CreateFlag ∧ flagHas flag ExclFlag then
          (ff.1, none, some GoErr.errExist)
        else (ff.1, some (f.1, ff.2.1), none)
      | some _ =>
        let p := fs.findInode (pathDirGo filename)
        match p.2 with
        | none =>
          if (fs.inodeAt p.1).IsDir then
            if flagHas flag CreateFlag ∧ (flagHas flag RdWrFlag ∨ flagHas flag WrOnlyFlag) then
              let c := fs.create (pathBaseGo filename) p.1 perm
              let ff := fileFlags c.2.2 c.1 flag
              (ff.1, some (c.2.1, ff.2.1), none)
            else (fs, none, some GoErr.errNotExist)
          else (fs, none, some GoErr.errNotDir)
        | some e => (fs, none, some e)
    match step.2.1, step.2.2 with
    | some nf, none =>
      let file := { nf.2 with name := filename }
      if (step.1.inodeAt nf.1).IsDir then (step.1, some (GoFile.dir file), none)
      else (step.1, some (GoFile.reg file), none)
    | _, some e => (step.1, none, some e)
    | none, none => (step.1, none, none)

/-- `memfs.Create(filename)`. -/
def Memfs.createFile (fs : Memfs) (filename : GoStr) : Memfs × Option GoFile × Option GoErr :=
  fs.openFile filename (RdWrFlag ||| CreateFlag ||| TruncFlag) 438

/-- `memfs.Open(filename)`. -/
def Memfs.openRd (fs : Memfs) (filename : GoStr) : Memfs × Option GoFile × Option GoErr :=
  fs.openFile filename RdOnlyFlag 0

/-- `memfs.Remove(name)`: split the path, resolve the parent, remove the
entry — and free the entry's inode without consulting the removal error
(the source has no `err == nil` guard around `freeInode`). -/
def Memfs.remove (fs : Memfs) (name : GoStr) : Memfs × Option GoErr :=
  let ds := pathSplitGo name
  let f := fs.findInode ds.1
  match f.2 with
  | none =>
    let parentH : MemFileH := { inodeNum := f.1 }
    let r := dirRemove fs parentH ds.2
    (r.1.freeInode r.2.2.1.inode.toNat, r.2.2.2)
  | some e => (fs, some e)

/-- `memfs.Mkdir(name, perm)`: prefix a slash, reject an existing path,
resolve the parent and create a directory inode under it. -/
def Memfs.mkdir (fs : Memfs) (name0 : GoStr) (perm : Nat) : Memfs × Option GoErr :=
  let name := if goHasPre name0 PathSeparator then name0 else PathSeparator ++ name0
  match (fs.findInode name).2 with
  | none => (fs, some (GoErr.pathError (goStr ("mkdir")) name GoErr.errExist))
  | some _ =>
    let p := fs.findInode (pathDirGo name)
    match p.2 with
    | none =>
      if (fs.inodeAt p.1).IsDir then
        ((fs.create (pathBaseGo name) p.1 (ModeDir ||| perm)).1, none)
      else (fs, some (GoErr.pathError (goStr ("mkdir")) name GoErr.errNotDir))
    | some e => (fs, some (GoErr.pathError (goStr ("mkdir")) name e))

/-- Associative-list update with map semantics (insert or replace). -/
def assocSet {α : Type} (l : List (Nat × α)) (k : Nat) (v : α) : List (Nat × α) :=
  if l.any (fun e => e.1 = k) then l.map (fun e => if e.1 = k then (k, v) else e)
  else l ++ [(k, v)]

/-- `memfs.watch(watcher, path)`: resolve the path and register the watcher
under the inode's number with the subscribed path as label. -/
def Memfs.watch (fs : Memfs) (wid : Nat) (p : GoStr) : Memfs × Option GoErr :=
  let f := fs.findInode p
  match f.2 with
  | none =>
    let num := (fs.inodeAt f.1).num
    let ws := (fs.watchers.lookup num).getD []
    ({ fs with watchers := assocSet fs.watchers num (assocSet ws wid p) }, none)
  | some e => (fs, some e)

/-! ## `util.go`: `WriteFile` / `ReadFile` -/

/-- `fixErr`: converts `*os.PathError` values, which the memory backend
never produces; on this backend it is the identity. -/
def fixErr (e : Option GoErr) : Option GoErr := e

/-- `WriteFile(fs, filename, content, perm)` from `util.go`: open with
`WRONLY|CREATE|TRUNC`, write, report a short write, close (only `*memFile`
implements `io.Closer`). -/
def writeFileGo (fs : Memfs) (filename : GoStr) (content : List Nat) (perm : Nat) :
    Memfs × Option GoErr :=
  let o := fs.openFile filename (WrOnlyFlag ||| CreateFlag ||| TruncFlag) perm
  match o.2.1, o.2.2 with
  | some (GoFile.reg h), none =>
    let w := h.write o.1 content
    let err0 := if w.2.2.2 = none ∧ w.2.2.1 < content.length
      then some GoErr.errShortWrite else w.2.2.2
    let c := w.2.1.close
    let err := if err0 = none then c.2 else err0
    (w.1, fixErr err)
  | some (GoFile.dir _), none =>
    -- memDir.Write answers is-directory; a *memDir is not an io.Closer
    (o.1, fixErr (some GoErr.errIsDir))
  | _, some e => (o.1, fixErr (some e))
  | none, none => (o.1, none)

/-- The loop of `ioutil.ReadAll`: read chunks until an error; end-of-input
becomes success.  The chunk size only affects how the loop slices the data,
not the result. -/
def readAllAux (fs : Memfs) : Nat → MemFileH → List Nat → List Nat × MemFileH × Option GoErr
  | 0, file, acc => (acc, file, some GoErr.diverge)
  | fuel + 1, file, acc =>
    let r := file.read fs 512
    match r.2.2 with
    | some e =>
      if e = GoErr.eof then (acc ++ r.2.1, r.1, none) else (acc ++ r.2.1, r.1, some e)
    | none => readAllAux fs fuel r.1 (acc ++ r.2.1)

/-- `ReadFile(fs, filename)` from `util.go`: `Open`, `ioutil.ReadAll`,
close when the handle is a closer. -/
def readFileGo (fs : Memfs) (filename : GoStr) : Memfs × List Nat × Option GoErr :=
  let o := fs.openRd filename
  match o.2.1, o.2.2 with
  | some (GoFile.reg h), none =>
    let r := readAllAux o.1 ((o.1.inodeAt h.inodeNum).size.toNat + 2) h []
    let c := r.2.1.close
    let err := if r.2.2 = none then c.2 else r.2.2
    (o.1, r.1, fixErr err)
  | some (GoFile.dir _), none =>
    -- ReadAll stops at memDir.Read's is-directory error; no closer
    (o.1, [], fixErr (some GoErr.errIsDir))
  | _, some e => (o.1, [], fixErr (some e))
  | none, none => (o.1, [], none)

/-! ## Concrete states used by witnesses and counterexamples -/

/-- A filesystem with one regular 3-byte file at inode 1 (`/f` in spirit). -/
def fsOneFile : Memfs :=
  { inodes := [{ num := 0, mode := ModeDir }, { num := 1, size := 3, blocks := [0] }],
    blocks := [[1, 2, 3] ++ List.replicate 1021 0] }

/-- A fresh filesystem with one directory `/d` (built by `Mkdir`). -/
def fsOneDir : Memfs := (newMemFs.mkdir (goStr ("/d")) 493).1

/-- A fresh filesystem with two regular files `/a` and `/b` (built by
`Create`), so the root directory holds two entries. -/
def fsTwoEntries : Memfs :=
  ((newMemFs.createFile (goStr ("/a"))).1.createFile (goStr ("/b"))).1

/-- A filesystem with a watcher (id 1, channel capacity 2) subscribed to the
root under path `/`, a watcher (id 2) subscribed under inode 5, and a
zero-capacity channel for watcher 3 also subscribed to the root. -/
def fsWatched : Memfs :=
  { inodes := [{ num := 0, mode := ModeDir }],
    watchers := [(0, [(1, goStr ("/")), (3, goStr ("/"))]), (5, [(2, goStr ("/x"))])],
    channels := [(1, { cap := 2, buf := [] }), (2, { cap := 2, buf := [] }),
                 (3, { cap := 0, buf := [] })] }

/-! ## Well-formedness of a memory filesystem state -/

/-- All blocks in the block table have exactly 1024 bytes. -/
def GB (fs : Memfs) : Prop := ∀ blk ∈ fs.blocks, blk.length = 1024

/-- Inode `n` is in the table, has a non-negative size, the block count the
size demands (invariant I1), and valid block indices. -/
def GoodIno (fs : Memfs) (n : Nat) : Prop :=
  n < fs.inodes.length ∧
  0 ≤ (fs.inodeAt n).size ∧
  (fs.inodeAt n).blocks.length = ((fs.inodeAt n).size.toNat + 1023) / 1024 ∧
  (∀ b ∈ (fs.inodeAt n).blocks, b < fs.blocks.length)

/-- Every block index referenced by any inode is in range. -/
def InoBlocksValid (fs : Memfs) : Prop :=
  ∀ ino ∈ fs.inodes, ∀ b ∈ ino.blocks, b < fs.blocks.length

/-- No block index is referenced twice (across inodes and the free-list) —
invariant I2. -/
def BlocksNodup (fs : Memfs) : Prop :=
  ((fs.inodes.map MemInode.blocks).flatten ++ fs.freeBlocks).Nodup

/-- Free-list block indices are in range. -/
def FreeValid (fs : Memfs) : Prop := ∀ b ∈ fs.freeBlocks, b < fs.blocks.length

/-- The byte content of inode `n`: its blocks' data joined, cut to its size. -/
def contentOf (fs : Memfs) (n : Nat) : List Nat :=
  (((fs.inodeAt n).blocks.map fs.blockData).flatten).take (fs.inodeAt n).size.toNat

/-- Greedy parser for a directory payload: a sequence of dirents.  The two
`int64` headers must be byte-canonical (they are, for any payload the code
itself serializes), the inode value non-negative.  Structural fuel
(`length + 1` suffices, every entry takes at least 16 bytes). -/
def parseDirents : Nat → List Nat → Option (List Dirent)
  | _, [] => some []
  | 0, _ :: _ => none
  | fuel + 1, b :: tl =>
    if (b :: tl).length < 16 then none
    else
      let inoU := beUint ((b :: tl).take 8)
      let lenU := beUint (((b :: tl).drop 8).take 8)
      if (b :: tl).take 8 ≠ beBytes8 inoU ∨ ((b :: tl).drop 8).take 8 ≠ beBytes8 lenU then none
      else if 2 ^ 63 ≤ inoU ∨ 2 ^ 63 ≤ lenU then none
      else if (b :: tl).length < 16 + lenU then none
      else
        match parseDirents fuel ((b :: tl).drop (16 + lenU)) with
        | some ents => some ({ inode := (inoU : Int), name := ((b :: tl).drop 16).take lenU } :: ents)
        | none => none

/-- Directory inode `i` of `fs` parses into entries whose inode numbers are
in range. -/
def DirOk (fs : Memfs) (i : Nat) : Prop :=
  ∃ ents, parseDirents ((contentOf fs i).length + 1) (contentOf fs i) = some ents ∧
    ∀ e ∈ ents, 0 ≤ e.inode ∧ e.inode.toNat < fs.inodes.length

/-- Well-formed memory filesystem state: what `NewMemFs` establishes and
every complete operation preserves. -/
structure WF (fs : Memfs) : Prop where
  rootDir : (fs.inodeAt 0).IsDir = true
  small : fs.inodes.length < 2 ^ 62
  nums : ∀ i < fs.inodes.length, (fs.inodeAt i).num = i
  good : ∀ i < fs.inodes.length, GoodIno fs i
  gb : GB fs
  valid : InoBlocksValid fs
  nodup : BlocksNodup fs
  freeValid : FreeValid fs
  freeReset : ∀ n ∈ fs.freeInodes, n < fs.inodes.length ∧ fs.inodeAt n = { num := n }
  dirs : ∀ i < fs.inodes.length, (fs.inodeAt i).IsDir = true → DirOk fs i

/-! ## General lemmas -/

/-- `List.lookup` on a cons cell, with propositional equality. -/
theorem lookupConsEq {α : Type} (k x : Nat) (v : α) (tl : List (Nat × α)) :
    ((k, v) :: tl).lookup x = if x = k then some v else tl.lookup x := by
  simp [List.lookup]
  split <;> simp_all

/-- A non-blocking send touches exactly the addressed watcher's channel. -/
theorem trySend_lookup (fs : Memfs) (w x : Nat) (ev : Event) :
    ((fs.trySend w ev).channels.lookup x) =
      if x = w then
        (fs.channels.lookup x).map (fun ch =>
          if ch.buf.length < ch.cap then { ch with buf := ch.buf ++ [ev] } else ch)
      else fs.channels.lookup x := by
  show (chanSend fs.channels w ev).lookup x = _
  induction fs.channels with
  | nil => simp [chanSend, List.lookup]
  | cons hd tl ih =>
    obtain ⟨k, chv⟩ := hd
    simp only [chanSend]
    by_cases hkw : k = w
    · subst hkw
      rw [if_pos rfl, lookupConsEq, lookupConsEq]
      by_cases hx : x = k
      · rw [if_pos hx, if_pos hx, if_pos hx]
        rfl
      · have hxw : ¬x = k := hx
        rw [if_neg hx, if_neg hx, if_neg hxw]
    · rw [if_neg hkw, lookupConsEq, lookupConsEq]
      by_cases hx : x = k
      · have hxw : ¬x = w := by
          intro h; exact hkw (hx ▸ h)
        rw [if_pos hx, if_neg hxw, if_pos hx]
      · rw [if_neg hx, if_neg hx, ih]

/-- The effect of `notify`'s fan-out fold on channel lookups: watchers in the
list receive one event each when their channel has room, all other channels
are untouched. -/
theorem notifyFold_spec (t : Nat) (name : GoStr) :
    ∀ (ws : List (Nat × GoStr)) (fs : Memfs), (ws.map Prod.fst).Nodup →
    (∀ wid, wid ∉ ws.map Prod.fst →
      ((ws.foldl (fun fs w =>
          fs.trySend w.1 { type := t, path := pathJoinGo w.2 name, error := none }) fs).channels.lookup wid)
        = fs.channels.lookup wid) ∧
    (∀ wid d ch, (wid, d) ∈ ws → fs.channels.lookup wid = some ch →
      ((ws.foldl (fun fs w =>
          fs.trySend w.1 { type := t, path := pathJoinGo w.2 name, error := none }) fs).channels.lookup wid)
        = some (if ch.buf.length < ch.cap
            then { ch with buf := ch.buf ++ [{ type := t, path := pathJoinGo d name, error := none }] }
            else ch)) := by
  intro ws
  induction ws with
  | nil => intro fs _; exact ⟨fun _ _ => rfl, fun _ _ _ h _ => absurd h (List.not_mem_nil _)⟩
  | cons hd tl ih =>
    intro fs hnodup
    rw [List.map_cons] at hnodup
    obtain ⟨hnd0, hndtl⟩ := List.nodup_cons.mp hnodup
    constructor
    · intro wid hwid
      rw [List.map_cons, List.mem_cons] at hwid
      push_neg at hwid
      rw [List.foldl_cons]
      rw [(ih _ hndtl).1 wid hwid.2, trySend_lookup, if_neg hwid.1]
    · intro wid d ch hmem hch
      rw [List.foldl_cons]
      rcases List.mem_cons.mp hmem with heq | htl
      · subst heq
        rw [(ih _ hndtl).1 wid hnd0, trySend_lookup, if_pos rfl, hch]
        rfl
      · have hne : wid ≠ hd.1 := by
          intro h
          exact hnd0 (h ▸ (List.mem_map.mpr ⟨(wid, d), htl, rfl⟩))
        have hch' : ((fs.trySend hd.1
            { type := t, path := pathJoinGo hd.2 name, error := none }).channels.lookup wid) = some ch := by
          rw [trySend_lookup, if_neg hne]; exact hch
        exact (ih _ hndtl).2 wid d ch htl hch'

/-! ## Claims -/

/-- C1 (counterexample): the round trip fails for a path with an empty
segment whose parent directory exists.  On a fresh filesystem,
`WriteFile("//b", [1,2,3], 0644)` succeeds — the root (the parent `path.Dir`
resolves) exists and the entry is created under the cleaned parent — but
`ReadFile("//b")` resolves the uncleaned split `["", "b"]`, fails at the
empty segment, and returns not-exist instead of the content. -/
theorem claim1_counterexample :
    (writeFileGo newMemFs (goStr ("//b")) [1, 2, 3] 420).2 = none ∧
    (readFileGo (writeFileGo newMemFs (goStr ("//b")) [1, 2, 3] 420).1 (goStr ("//b"))).2 =
      ([], some GoErr.errNotExist) := by
  constructor
  · decide
  · decide

/-- C2: `Remove` on a path that does not exist destroys the root inode.
`memfs.Remove` calls `freeInode(ent.inode)` without checking the removal
error; for a missing name the scanned entry is the zero value, so inode 0 —
the root — has its mode reset to 0 (no longer a directory) and is pushed
onto the inode free-list, violating invariant I4. -/
theorem claim2_remove_frees_root :
    ((newMemFs.remove (goStr ("/nosuch"))).1.inodeAt 0).IsDir = false ∧
    ((newMemFs.remove (goStr ("/nosuch"))).1.inodeAt 0).mode = 0 ∧
    (newMemFs.remove (goStr ("/nosuch"))).1.freeInodes = [0] := by
  refine ⟨?_, ?_, ?_⟩ <;> decide

/-- C3 (counterexample): opening an existing directory write-only returns a
directory handle and a nil error, not the is-dir error the claim states —
`OpenFile` discards the error computed by `memFile.flags`. -/
theorem claim3_counterexample :
    (fsOneDir.openFile (goStr ("/d")) WrOnlyFlag 0).2.2 = none ∧
    (fsOneDir.openFile (goStr ("/d")) WrOnlyFlag 0).2.1 =
      some (GoFile.dir (MemFileH.mk false false 1 0 false (goStr ("/d")))) := by
  constructor
  · decide
  · decide

/-- C3 (amended): for every existing directory path, `OpenFile` returns a
directory handle with a nil error for every flag combination that passes
`check()` and is not `CREATE|EXCL` — including write/append/create/trunc
flags, whose is-dir error `memFile.flags` computes but `OpenFile` drops. -/
theorem claim3_open_dir_amended (fs : Memfs) (p : GoStr) (flag perm : Nat) (n : Nat)
    (hfind : fs.findInode (if goHasPre p PathSeparator then p else PathSeparator ++ p) = (n, none))
    (hdir : (fs.inodeAt n).IsDir = true)
    (hchk : flagCheck flag = none)
    (hne : ¬(flagHas flag CreateFlag = true ∧ flagHas flag ExclFlag = true)) :
    fs.openFile p flag perm =
      (fs, some (GoFile.dir (MemFileH.mk false false n 0 false
        (if goHasPre p PathSeparator then p else PathSeparator ++ p))), none) := by
  simp only [Memfs.openFile, hchk, hfind, fileFlags, hdir, if_true]
  rw [if_neg hne]
  by_cases hW : flagHas flag WrOnlyFlag = true ∨ flagHas flag RdWrFlag = true ∨
      flagHas flag AppendFlag = true ∨ flagHas flag CreateFlag = true ∨
      flagHas flag TruncFlag = true
  · rw [if_pos hW]
    simp [hdir, MemFileH.mk]
  · rw [if_neg hW]
    simp [hdir, MemFileH.mk]

/-- C3 (witness): the amended theorem applied to `/d` opened `WRONLY`. -/
theorem claim3_witness :
    fsOneDir.openFile (goStr ("/d")) WrOnlyFlag 0 =
      (fsOneDir, some (GoFile.dir (MemFileH.mk false false 1 0 false (goStr ("/d")))), none) := by
  have h := claim3_open_dir_amended fsOneDir (goStr ("/d")) WrOnlyFlag 0 1
    (by decide) (by decide) (by decide) (by decide)
  simpa using h

/-- C4: on an invalid size the inode is not left unchanged.  `memFile.trunc`
sets the invalid-size error for `size < 0` but still calls
`memInode.trunc(size)`: on a 3-byte one-block file, `trunc(-1)` returns
`ErrSize` and yet frees the data block and sets the size to `-1`.  (The
read-only gate of the claim does hold and is evaluated here too.) -/
theorem claim4_trunc_eval :
    ((MemFileH.mk false false 1 0 false []).trunc fsOneFile (-1)).2 = some GoErr.errSize ∧
    (((MemFileH.mk false false 1 0 false []).trunc fsOneFile (-1)).1.inodeAt 1).size = -1 ∧
    (((MemFileH.mk false false 1 0 false []).trunc fsOneFile (-1)).1.inodeAt 1).blocks = [] ∧
    ((MemFileH.mk false false 1 0 false []).trunc fsOneFile (-1)).1.freeBlocks = [0] ∧
    ((MemFileH.mk true false 1 0 false []).trunc fsOneFile 1).2 = some GoErr.errReadOnly ∧
    ((MemFileH.mk true false 1 0 false []).trunc fsOneFile 1).1 = fsOneFile := by
  refine ⟨?_, ?_, ?_, ?_, ?_, ?_⟩ <;> decide

/-- C5 (counterexample): `Seek(10, 42)` on a handle whose stored offset is 5
returns the invalid-whence error but sets the stored offset to 10 — the
claim's "handle offset unchanged" fails. -/
theorem claim5_counterexample :
    (MemFileH.mk false false 1 5 false []).seek fsOneFile 10 42 =
      (MemFileH.mk false false 1 10 false [], 10, some GoErr.errWhence) := by
  decide

/-- C5 (amended): `Seek` behaves as claimed for whence `SET`/`CUR`/`END` and
for negative computed offsets; but for any other whence value with a
non-negative offset argument it returns the invalid-whence error *and sets
the stored offset to that argument*, and with a negative offset argument it
returns the invalid-seek error (not invalid-whence), offset unchanged. -/
theorem claim5_seek_amended (file : MemFileH) (fs : Memfs) (offset whence : Int) :
    (whence = 0 → 0 ≤ offset →
      file.seek fs offset whence = ({ file with offset := offset }, offset, none)) ∧
    (whence = 1 → 0 ≤ file.offset + offset →
      file.seek fs offset whence =
        ({ file with offset := file.offset + offset }, file.offset + offset, none)) ∧
    (whence = 2 → 0 ≤ (fs.inodeAt file.inodeNum).size + offset →
      file.seek fs offset whence =
        ({ file with offset := (fs.inodeAt file.inodeNum).size + offset },
          (fs.inodeAt file.inodeNum).size + offset, none)) ∧
    (¬(whence = 0 ∨ whence = 1 ∨ whence = 2) → 0 ≤ offset →
      file.seek fs offset whence = ({ file with offset := offset }, offset, some GoErr.errWhence)) ∧
    (¬(whence = 0 ∨ whence = 1 ∨ whence = 2) → offset < 0 →
      file.seek fs offset whence = (file, file.offset, some GoErr.errInvalidSeek)) ∧
    (whence = 0 → offset < 0 →
      file.seek fs offset whence = (file, file.offset, some GoErr.errInvalidSeek)) ∧
    (whence = 1 → file.offset + offset < 0 →
      file.seek fs offset whence = (file, file.offset, some GoErr.errInvalidSeek)) ∧
    (whence = 2 → (fs.inodeAt file.inodeNum).size + offset < 0 →
      file.seek fs offset whence = (file, file.offset, some GoErr.errInvalidSeek)) := by
  refine ⟨?_, ?_, ?_, ?_, ?_, ?_, ?_, ?_⟩ <;> intro h1 h2 <;>
    simp_all [MemFileH.seek] <;> omega

/-- C5 (witness): the amended invalid-whence case at `Seek(10, 42)` from
stored offset 5. -/
theorem claim5_witness :
    (MemFileH.mk false false 1 5 false []).seek fsOneFile 10 42 =
      ({ MemFileH.mk false false 1 5 false [] with offset := 10 }, 10, some GoErr.errWhence) :=
  (claim5_seek_amended (MemFileH.mk false false 1 5 false []) fsOneFile 10 42).2.2.2.1
    (by decide) (by decide)

/-- C6 (counterexample): reading through a closed handle performs the read
and returns the data with no error — the closed-file rejection the claim
describes does not exist in `Read`/`Write`/`Seek`. -/
theorem claim6_counterexample :
    ((MemFileH.mk false false 1 0 true []).read fsOneFile 3).2 = ([1, 2, 3], none) := by
  decide

/-- C6 (amended): `Read`, `Write` and `Seek` never consult the closed bit —
their visible results are identical on a closed and an open handle; only a
second `Close` reports the already-closed error. -/
theorem claim6_closed_ignored (fs : Memfs) (h : MemFileH) (p : List Nat) (k : Nat)
    (off whence : Int) :
    ((({ h with closed := true }).read fs k).2 = (h.read fs k).2) ∧
    ((({ h with closed := true }).write fs p).1 = (h.write fs p).1) ∧
    ((({ h with closed := true }).write fs p).2.2 = (h.write fs p).2.2) ∧
    ((({ h with closed := true }).seek fs off whence).2 = (h.seek fs off whence).2) ∧
    (({ h with closed := true }).close = ({ h with closed := true }, some GoErr.errClosed)) := by
  cases h
  refine ⟨?_, ?_, ?_, ?_, ?_⟩ <;>
    simp only [MemFileH.read, MemFileH.write, MemFileH.seek, MemFileH.close] <;>
    split_ifs <;> simp

/-- C7: `memDir.Readdir`'s loop only runs while `n ≤ 0`, so the bounded mode
the claim describes is dead code: `Readdir(1)` on a directory with two
entries returns no entries and a nil error (the claim requires one entry);
`Readdir(-2)` returns all entries but leaks `io.EOF` (the claim requires
nil), and `Readdir(0)` on an empty directory also returns `io.EOF`.  Only
`n = -1` (and `n = 0` on a non-empty directory) behaves as claimed. -/
theorem claim7_readdir_eval :
    (memDirReaddir fsTwoEntries (MemFileH.mk false false 0 0 false []) 1).2 = ([], none) ∧
    (memDirReaddir fsTwoEntries (MemFileH.mk false false 0 0 false []) (-2)).2 =
      ([(goStr ("a"), 1), (goStr ("b"), 2)], some GoErr.eof) ∧
    (memDirReaddir newMemFs (MemFileH.mk false false 0 0 false []) 0).2.2 = some GoErr.eof ∧
    (memDirReaddir fsTwoEntries (MemFileH.mk false false 0 0 false []) (-1)).2 =
      ([(goStr ("a"), 1), (goStr ("b"), 2)], none) := by
  refine ⟨?_, ?_, ?_, ?_⟩ <;> decide

/-- C8: over one access mode in `{RDONLY, WRONLY, RDWR}` and any subset of
`{APPEND, CREATE, EXCL, TRUNC}`, `check` returns invalid-flags exactly when
the mode is read-only with at least one extra bit (or both write modes are
set, impossible here), and nil otherwise. -/
theorem claim8_flag_validator (m : Nat) (hm : m ∈ [RdOnlyFlag, WrOnlyFlag, RdWrFlag])
    (a c x t : Bool) :
    let fl := m ||| (if a then AppendFlag else 0) ||| (if c then CreateFlag else 0) |||
      (if x then ExclFlag else 0) ||| (if t then TruncFlag else 0)
    (flagCheck fl = some GoErr.errInvalidFlags ↔
      (m = RdOnlyFlag ∧ (a ∨ c ∨ x ∨ t)) ∨
        (flagHas fl WrOnlyFlag = true ∧ flagHas fl RdWrFlag = true)) ∧
    (flagCheck fl ≠ some GoErr.errInvalidFlags → flagCheck fl = none) := by
  fin_cases hm <;> revert a c x t <;> decide

/-- C8 (witness): the validator at `RDONLY|APPEND|CREATE|EXCL|TRUNC` (an
invalid combination) via the theorem. -/
theorem claim8_witness :
    RdOnlyFlag ∈ [RdOnlyFlag, WrOnlyFlag, RdWrFlag] ∧
    (flagCheck (RdOnlyFlag ||| AppendFlag ||| CreateFlag ||| ExclFlag ||| TruncFlag) =
        some GoErr.errInvalidFlags ↔
      (RdOnlyFlag = RdOnlyFlag ∧ (true = true ∨ true = true ∨ true = true ∨ true = true)) ∨
        (flagHas (RdOnlyFlag ||| AppendFlag ||| CreateFlag ||| ExclFlag ||| TruncFlag) WrOnlyFlag = true ∧
          flagHas (RdOnlyFlag ||| AppendFlag ||| CreateFlag ||| ExclFlag ||| TruncFlag) RdWrFlag = true)) := by
  refine ⟨by decide, ?_⟩
  have h := claim8_flag_validator RdOnlyFlag (by decide) true true true true
  simpa using h.1

/-- C9: `notify(t, n, name)` enqueues exactly one `Event{t, join(d, name),
no error}` on the channel of every watcher registered under inode `n` with
subscribed path `d` when the channel has spare capacity, drops the event
when it is full, and leaves every other channel untouched. -/
theorem claim9_notify_fanout (fs : Memfs) (t n : Nat) (name : GoStr) (ws : List (Nat × GoStr))
    (hws : fs.watchers.lookup n = some ws)
    (hnodup : (ws.map Prod.fst).Nodup) :
    (∀ wid d ch, (wid, d) ∈ ws → fs.channels.lookup wid = some ch →
      ((fs.notify t n name).channels.lookup wid) =
        some (if ch.buf.length < ch.cap
          then { ch with buf := ch.buf ++ [{ type := t, path := pathJoinGo d name, error := none }] }
          else ch)) ∧
    (∀ wid, wid ∉ ws.map Prod.fst →
      ((fs.notify t n name).channels.lookup wid) = fs.channels.lookup wid) := by
  have hnotify : fs.notify t n name =
      ws.foldl (fun fs w =>
        fs.trySend w.1 { type := t, path := pathJoinGo w.2 name, error := none }) fs := by
    simp [Memfs.notify, hws]
  rw [hnotify]
  exact ⟨(notifyFold_spec t name ws fs hnodup).2, (notifyFold_spec t name ws fs hnodup).1⟩

/-- C9 (witness): on `fsWatched`, notifying the root inode delivers one
event to watcher 1 (spare capacity), drops it for watcher 3 (full channel),
and leaves watcher 2 (registered under another inode) untouched. -/
theorem claim9_witness :
    fsWatched.watchers.lookup 0 = some [(1, goStr ("/")), (3, goStr ("/"))] ∧
    ((fsWatched.notify CreateEvent 0 (goStr ("n"))).channels.lookup 1 =
      some { cap := 2,
             buf := [{ type := CreateEvent, path := pathJoinGo (goStr ("/")) (goStr ("n")),
                       error := none }] }) ∧
    ((fsWatched.notify CreateEvent 0 (goStr ("n"))).channels.lookup 3 =
      some { cap := 0, buf := [] }) ∧
    ((fsWatched.notify CreateEvent 0 (goStr ("n"))).channels.lookup 2 =
      fsWatched.channels.lookup 2) := by
  have hspec := claim9_notify_fanout fsWatched CreateEvent 0 (goStr ("n"))
    [(1, goStr ("/")), (3, goStr ("/"))] (by decide) (by decide)
  refine ⟨by decide, ?_, ?_, ?_⟩
  · have h := hspec.1 1 (goStr ("/")) { cap := 2, buf := [] } (by decide) (by decide)
    rw [h]
    decide
  · have h := hspec.1 3 (goStr ("/")) { cap := 0, buf := [] } (by decide) (by decide)
    rw [h]
    decide
  · exact hspec.2 2 (by decide)

/-- C10: for a path without a leading slash, `OpenFile` and `Mkdir` behave
exactly as on the slash-prefixed path: both first normalize the name by
prepending the separator, so states, results and errors coincide. -/
theorem claim10_relative_paths (fs : Memfs) (p : GoStr) (flag perm mperm : Nat)
    (h : goHasPre p PathSeparator = false) :
    fs.openFile p flag perm = fs.openFile (PathSeparator ++ p) flag perm ∧
    fs.mkdir p mperm = fs.mkdir (PathSeparator ++ p) mperm := by
  have hpre : goHasPre (PathSeparator ++ p) PathSeparator = true := by
    simp [goHasPre, PathSeparator, List.isPrefixOf]
  constructor
  · simp only [Memfs.openFile, h, hpre, if_true, if_false, Bool.false_eq_true, reduceIte]
  · simp only [Memfs.mkdir, h, hpre, if_true, if_false, Bool.false_eq_true, reduceIte]

/-- C10 (witness): the equivalence at the relative path `f` on a fresh
filesystem, with `Create`-style flags. -/
theorem claim10_witness :
    goHasPre (goStr ("f")) PathSeparator = false ∧
    (newMemFs.openFile (goStr ("f")) (WrOnlyFlag ||| CreateFlag) 420 =
      newMemFs.openFile (PathSeparator ++ goStr ("f")) (WrOnlyFlag ||| CreateFlag) 420 ∧
    newMemFs.mkdir (goStr ("f")) 493 =
      newMemFs.mkdir (PathSeparator ++ goStr ("f")) 493) :=
  ⟨by decide, claim10_relative_paths newMemFs (goStr ("f")) (WrOnlyFlag ||| CreateFlag) 420 493
    (by decide)⟩

end Vfs
